import Mathlib

/-!
Verification development for the `ai-uz-lawyer` frontend
(`src/frontend/src/api/client.ts`, `src/frontend/src/pages/{Validator,Generator,History}.tsx`,
`src/frontend/src/contexts/AuthContext.tsx`, and the Lawyer chat page).

JavaScript strings are modelled as `List Char` (`Str`).  `String.prototype.split`
with a one-character separator is modelled by `splitOnChar`, and the SSE
stream-consumption loop shared by `sendChatMessage` and `generateContract`
is modelled by `consume` below.  `JSON.parse` is an external browser builtin;
stream-level theorems are stated for an arbitrary parse function, and a
concrete executable model `jsonParseData` is provided for evaluating the
consumers on concrete inputs.
-/

/-- JavaScript strings, modelled as lists of characters. -/
abbrev Str := List Char

/-- `cons` a character onto the first segment of a segment list (helper for
`splitOnChar`); on the empty segment list it creates a fresh segment. -/
def consHead (c : Char) : List Str → List Str
  | [] => [[c]]
  | l :: ls => (c :: l) :: ls

/-- Model of JavaScript `s.split(sep)` for a one-character separator `sep`:
returns every (possibly empty) segment between occurrences of `sep`,
in order.  `splitOnChar sep []` is `[[]]`, like `''.split(sep)` is `['']`. -/
def splitOnChar (sep : Char) : Str → List Str
  | [] => [[]]
  | c :: cs => if c = sep then [] :: splitOnChar sep cs else consHead c (splitOnChar sep cs)

/-- Glue two segment lists: the last segment of the first is concatenated
with the first segment of the second (helper describing how `splitOnChar`
acts on an append). -/
def glue : List Str → List Str → List Str
  | [], ys => ys
  | [x], [] => [x]
  | [x], y :: ys => (x ++ y) :: ys
  | x :: xs, ys => x :: glue xs ys

theorem splitOnChar_ne_nil (sep : Char) (s : Str) : splitOnChar sep s ≠ [] := by
  induction s with
  | nil => simp [splitOnChar]
  | cons c cs ih =>
    by_cases h : c = sep
    · simp [splitOnChar, h]
    · simp only [splitOnChar, if_neg h]
      cases hs : splitOnChar sep cs with
      | nil => simp [consHead]
      | cons l ls => simp [consHead]

theorem glue_cons_of_ne_nil (x : Str) (xs ys : List Str) (h : xs ≠ []) :
    glue (x :: xs) ys = x :: glue xs ys := by
  cases xs with
  | nil => exact absurd rfl h
  | cons a as => cases ys <;> rfl

theorem consHead_glue (c : Char) (A B : List Str) (hA : A ≠ []) (hB : B ≠ []) :
    consHead c (glue A B) = glue (consHead c A) B := by
  cases A with
  | nil => exact absurd rfl hA
  | cons a as =>
    cases as with
    | nil =>
      cases B with
      | nil => exact absurd rfl hB
      | cons b bs => simp [glue, consHead]
    | cons a2 as2 =>
      rw [glue_cons_of_ne_nil a (a2 :: as2) B (by simp)]
      show (c :: a) :: glue (a2 :: as2) B = glue ((c :: a) :: a2 :: as2) B
      rw [glue_cons_of_ne_nil (c :: a) (a2 :: as2) B (by simp)]

/-- How `split` acts on concatenation: split the two halves separately and
glue the boundary segments together.  This is the algebraic heart of the
SSE partial-line buffering argument. -/
theorem splitOnChar_append (sep : Char) (a b : Str) :
    splitOnChar sep (a ++ b) = glue (splitOnChar sep a) (splitOnChar sep b) := by
  induction a with
  | nil =>
    cases hb : splitOnChar sep b with
    | nil => exact absurd hb (splitOnChar_ne_nil sep b)
    | cons y ys => simp [splitOnChar, glue, hb]
  | cons c cs ih =>
    by_cases h : c = sep
    · simp only [List.cons_append, splitOnChar, if_pos h, List.append_eq, ih]
      rw [glue_cons_of_ne_nil [] (splitOnChar sep cs) _ (splitOnChar_ne_nil sep cs)]
    · simp only [List.cons_append, splitOnChar, if_neg h, List.append_eq, ih]
      exact consHead_glue c _ _ (splitOnChar_ne_nil sep cs) (splitOnChar_ne_nil sep b)

theorem mem_splitOnChar_not_mem (sep : Char) (s : Str) :
    ∀ l ∈ splitOnChar sep s, sep ∉ l := by
  induction s with
  | nil => intro l hl; simp [splitOnChar] at hl; simp [hl]
  | cons c cs ih =>
    intro l hl
    by_cases h : c = sep
    · simp only [splitOnChar, if_pos h, List.mem_cons] at hl
      rcases hl with rfl | hl
      · simp
      · exact ih l hl
    · simp only [splitOnChar, if_neg h] at hl
      cases hs : splitOnChar sep cs with
      | nil => exact absurd hs (splitOnChar_ne_nil sep cs)
      | cons m ms =>
        rw [hs] at hl
        simp only [consHead, List.mem_cons] at hl
        rcases hl with rfl | hl
        · have hm : sep ∉ m := ih m (by rw [hs]; exact List.mem_cons_self m ms)
          intro hmem
          rcases List.mem_cons.mp hmem with rfl | hmem
          · exact h rfl
          · exact hm hmem
        · exact ih l (by rw [hs]; exact List.mem_cons_of_mem m hl)

theorem splitOnChar_of_not_mem (sep : Char) (s : Str) (h : sep ∉ s) :
    splitOnChar sep s = [s] := by
  induction s with
  | nil => rfl
  | cons c cs ih =>
    have hc : ¬ c = sep := fun hc => h (by simp [hc])
    have hcs : sep ∉ cs := fun hm => h (List.mem_cons_of_mem c hm)
    simp [splitOnChar, if_neg hc, ih hcs, consHead]

theorem getLastD_cons_of_ne_nil {α : Type} (x : α) (xs : List α) (d : α) (h : xs ≠ []) :
    (x :: xs).getLastD d = xs.getLastD d := by
  cases xs with
  | nil => exact absurd rfl h
  | cons y ys => rfl

theorem getLastD_append_right {α : Type} (A B : List α) (d : α) (h : B ≠ []) :
    (A ++ B).getLastD d = B.getLastD d := by
  induction A with
  | nil => rfl
  | cons a A ih =>
    rw [List.cons_append, getLastD_cons_of_ne_nil a (A ++ B) d (by simp [h]), ih]

theorem dropLast_append_right {α : Type} (A B : List α) (h : B ≠ []) :
    (A ++ B).dropLast = A ++ B.dropLast := by
  induction A with
  | nil => rfl
  | cons a A ih =>
    have : A ++ B ≠ [] := by simp [h]
    cases hAB : A ++ B with
    | nil => exact absurd hAB this
    | cons x xs =>
      rw [List.cons_append, hAB, List.dropLast_cons₂, ← hAB, ih, List.cons_append]

theorem getLastD_mem {α : Type} (l : List α) (d : α) (h : l ≠ []) : l.getLastD d ∈ l := by
  induction l with
  | nil => exact absurd rfl h
  | cons x xs ih =>
    cases xs with
    | nil => simp [List.getLastD]
    | cons y ys =>
      rw [getLastD_cons_of_ne_nil x (y :: ys) d (by simp)]
      exact List.mem_cons_of_mem x (ih (by simp))

theorem glue_ne_nil (A B : List Str) (hB : B ≠ []) : glue A B ≠ [] := by
  induction A with
  | nil => simpa [glue]
  | cons a as ih =>
    cases as with
    | nil => cases B with
      | nil => exact absurd rfl hB
      | cons b bs => simp [glue]
    | cons a2 as2 =>
      rw [glue_cons_of_ne_nil a (a2 :: as2) B (by simp)]
      simp

/-- Gluing onto `B` only touches `B`'s first segment: the result is the
first list minus its last segment, followed by that last segment glued
onto `B`. -/
theorem glue_eq_dropLast_append (A B : List Str) (hA : A ≠ []) :
    glue A B = A.dropLast ++ glue [A.getLastD []] B := by
  induction A with
  | nil => exact absurd rfl hA
  | cons a as ih =>
    cases as with
    | nil => rfl
    | cons a2 as2 =>
      rw [glue_cons_of_ne_nil a (a2 :: as2) B (by simp)]
      rw [ih (by simp)]
      rw [getLastD_cons_of_ne_nil a (a2 :: as2) [] (by simp)]
      rw [List.dropLast_cons₂, List.cons_append]

/-! ## JSON values and the parsed `data:` payload object -/

/-- JSON values, as produced by the browser's `JSON.parse`. -/
inductive JVal : Type where
  | null : JVal
  | jbool : Bool → JVal
  | jnum : Int → JVal
  | jstr : Str → JVal
  | jarr : List JVal → JVal
  | jobj : List (Str × JVal) → JVal

/-- JavaScript truthiness of a JSON value (`undefined` is represented by
`Option.none` at the use sites, never by a `JVal`). -/
def jsTruthy : JVal → Bool
  | .null => false
  | .jbool b => b
  | .jnum n => n != 0
  | .jstr s => s != []
  | .jarr _ => true
  | .jobj _ => true

/-- The fields of a parsed stream event that `sendChatMessage` and
`generateContract` read off the object returned by `JSON.parse`
(`client.ts` lines 244-252 and 340-348).  A missing field (JavaScript
`undefined`) is `none`. -/
structure DataObj : Type where
  chunk : Option JVal
  done : Option JVal
  session_id : Option JVal
  contract_id : Option JVal
  sources : Option JVal
  error : Option JVal


/-- Property lookup `v.f` on a `JSON.parse` result: `undefined` unless the
value is an object with that member (first occurrence, as JS objects keep
one value per key). -/
def jlookup (v : JVal) (key : Str) : Option JVal :=
  match v with
  | .jobj fields => fields.lookup key
  | _ => none

/-- Read the six fields the stream consumers use off a `JSON.parse` result. -/
def toDataObj (v : JVal) : DataObj :=
  ⟨jlookup v ("chunk".toList), jlookup v ("done".toList),
   jlookup v ("session_id".toList), jlookup v ("contract_id".toList),
   jlookup v ("sources".toList), jlookup v ("error".toList)⟩

/-! ## The SSE stream consumers (`client.ts`)

`sendChatMessage` (lines 227-260) and `generateContract` (lines 322-356)
run the same loop: decode each network read, append to `buffer`, split on
`'\n'`, keep the trailing segment as the new buffer (`lines.pop() || ''`),
and for each complete line starting with `"data: "` run
`JSON.parse(line.slice(6))` inside a `try` whose `catch` ignores the
exception.  Inside the `try`, a truthy `chunk` field invokes `onChunk`, a
truthy `done` field invokes `onDone(data.session_id, data.sources || [])`
(`data.contract_id` in `generateContract`), and a truthy `error` field
executes `throw new Error(data.error)` — which the surrounding `catch`
swallows. -/

/-- Callback invocations observable by the caller of a stream consumer.
`onDone`'s first argument is the raw `session_id`/`contract_id` field
(possibly `undefined` = `none`), its second the value of
`data.sources || []`. -/
inductive Ev : Type where
  | onChunk : JVal → Ev
  | onDone : Option JVal → JVal → Ev


/-- The exception raised inside the per-line `try` block, before the
`catch` swallows it: either `JSON.parse` failed on the payload, or the
parsed object had a truthy `error` field (the `throw new Error(data.error)`
of `client.ts` lines 252 and 348). -/
inductive Thrown : Type where
  | parseErr : Thrown
  | errEvent : JVal → Thrown


/-- `data.sources || []` (`client.ts` lines 249 and 345): the field's value
when truthy, otherwise the empty array. -/
def sourcesArg (d : DataObj) : JVal :=
  match d.sources with
  | some v => if jsTruthy v then v else .jarr []
  | none => .jarr []

/-- The `try` body of `sendChatMessage`'s per-line processing (`client.ts`
lines 243-253): callback invocations in program order, plus the exception
the body raises, if any.  `parse` stands for `JSON.parse` restricted to
returning the six fields used. -/
def chatLineCore (parse : Str → Option DataObj) (line : Str) : List Ev × Option Thrown :=
  if ("data: ".toList).isPrefixOf line then
    match parse (line.drop 6) with
    | none => ([], some .parseErr)
    | some d =>
      let evChunk : List Ev :=
        match d.chunk with
        | some v => if jsTruthy v then [.onChunk v] else []
        | none => []
      let evDone : List Ev :=
        match d.done with
        | some v => if jsTruthy v then [.onDone d.session_id (sourcesArg d)] else []
        | none => []
      let thrown : Option Thrown :=
        match d.error with
        | some v => if jsTruthy v then some (.errEvent v) else none
        | none => none
      (evChunk ++ evDone, thrown)
  else ([], none)

/-- `sendChatMessage`'s complete per-line processing: the `try` body wrapped
in the `catch (e) { /* ignored */ }` of `client.ts` lines 254-256, which
discards whatever was thrown and keeps the callbacks already invoked. -/
def chatProcLine (parse : Str → Option DataObj) (line : Str) : List Ev :=
  (chatLineCore parse line).1

/-- The `try` body of `generateContract`'s per-line processing (`client.ts`
lines 339-349); identical to `chatLineCore` except that `onDone` receives
`data.contract_id`. -/
def genLineCore (parse : Str → Option DataObj) (line : Str) : List Ev × Option Thrown :=
  if ("data: ".toList).isPrefixOf line then
    match parse (line.drop 6) with
    | none => ([], some .parseErr)
    | some d =>
      let evChunk : List Ev :=
        match d.chunk with
        | some v => if jsTruthy v then [.onChunk v] else []
        | none => []
      let evDone : List Ev :=
        match d.done with
        | some v => if jsTruthy v then [.onDone d.contract_id (sourcesArg d)] else []
        | none => []
      let thrown : Option Thrown :=
        match d.error with
        | some v => if jsTruthy v then some (.errEvent v) else none
        | none => none
      (evChunk ++ evDone, thrown)
  else ([], none)

/-- `generateContract`'s per-line processing after the `catch` of
`client.ts` lines 350-352 swallows the exception. -/
def genProcLine (parse : Str → Option DataObj) (line : Str) : List Ev :=
  (genLineCore parse line).1

/-- Loop state of the stream-reading `while` loop: the partial-line
`buffer` and the callback invocations made so far. -/
structure CState : Type where
  buffer : Str
  events : List Ev


/-- One iteration of the read loop (`client.ts` lines 233-259): append the
decoded read to the buffer, split on newlines, keep the trailing segment
(`lines.pop() || ''`) as the new buffer, and process every complete line
with `f`. -/
def feed (f : Str → List Ev) (st : CState) (s : Str) : CState :=
  let ls := splitOnChar '\n' (st.buffer ++ s)
  ⟨ls.getLastD [], st.events ++ (ls.dropLast).flatMap f⟩

/-- The whole read loop over a sequence of network reads, starting from an
empty buffer (`client.ts` line 231).  As every per-line exception is caught
inside the loop body, the loop always runs to completion and the promise
resolves; `consume` is correspondingly total. -/
def consume (f : Str → List Ev) (reads : List Str) : CState :=
  reads.foldl (feed f) ⟨[], []⟩

/-- `sendChatMessage`'s observable behaviour on a decoded read sequence. -/
def chatConsume (parse : Str → Option DataObj) (reads : List Str) : CState :=
  consume (chatProcLine parse) reads

/-- `generateContract`'s observable behaviour on a decoded read sequence. -/
def genConsume (parse : Str → Option DataObj) (reads : List Str) : CState :=
  consume (genProcLine parse) reads

/-- The complete (newline-terminated) lines of a full stream text, in
order: every segment but the trailing one. -/
def completeLines (full : Str) : List Str :=
  (splitOnChar '\n' full).dropLast

/-- Master lemma: the read loop is equivalent to splitting the whole
concatenated stream into lines once — the buffer always holds the trailing
partial line, and the events are the per-line events of the complete lines
in order, independently of how the bytes were sliced into reads. -/
theorem consume_eq_of_flatten (f : Str → List Ev) (reads : List Str) :
    consume f reads =
      ⟨(splitOnChar '\n' reads.flatten).getLastD [],
       (completeLines reads.flatten).flatMap f⟩ := by
  suffices h : ∀ (rs : List Str) (buf : Str) (evs : List Ev), '\n' ∉ buf →
      rs.foldl (feed f) ⟨buf, evs⟩ =
        ⟨(splitOnChar '\n' (buf ++ rs.flatten)).getLastD [],
         evs ++ ((splitOnChar '\n' (buf ++ rs.flatten)).dropLast).flatMap f⟩ by
    have := h reads [] [] (by simp)
    simpa [consume, completeLines] using this
  intro rs
  induction rs with
  | nil =>
    intro buf evs hbuf
    simp only [List.foldl_nil, List.flatten_nil, List.append_nil]
    rw [splitOnChar_of_not_mem '\n' buf hbuf]
    simp [List.getLastD]
  | cons s rest ih =>
    intro buf evs hbuf
    rw [List.foldl_cons]
    have hL : splitOnChar '\n' (buf ++ s) ≠ [] := splitOnChar_ne_nil '\n' (buf ++ s)
    have hbuf2 : '\n' ∉ (splitOnChar '\n' (buf ++ s)).getLastD [] :=
      mem_splitOnChar_not_mem '\n' (buf ++ s) _ (getLastD_mem _ _ hL)
    rw [show feed f ⟨buf, evs⟩ s =
        ⟨(splitOnChar '\n' (buf ++ s)).getLastD [],
         evs ++ ((splitOnChar '\n' (buf ++ s)).dropLast).flatMap f⟩ from rfl]
    rw [ih _ _ hbuf2]
    set L := splitOnChar '\n' (buf ++ s) with hLdef
    set F := splitOnChar '\n' rest.flatten with hFdef
    have hF : F ≠ [] := splitOnChar_ne_nil '\n' rest.flatten
    have hfull : splitOnChar '\n' (buf ++ (s :: rest).flatten) = glue L F := by
      rw [List.flatten_cons, ← List.append_assoc, splitOnChar_append]
    have hlast : splitOnChar '\n' (L.getLastD [] ++ rest.flatten) =
        glue [L.getLastD []] F := by
      rw [splitOnChar_append, splitOnChar_of_not_mem '\n' _ hbuf2]
    have hG : glue [L.getLastD []] F ≠ [] := glue_ne_nil _ _ hF
    have hglue : glue L F = L.dropLast ++ glue [L.getLastD []] F :=
      glue_eq_dropLast_append L F hL
    rw [hfull, hlast, hglue]
    rw [getLastD_append_right _ _ _ hG, dropLast_append_right _ _ hG]
    rw [List.flatMap_append, List.append_assoc]

/-! ## A concrete executable model of `JSON.parse`

`JSON.parse` is a browser builtin, external to the repository.  The
stream theorems above and below quantify over an arbitrary parse
function; the following small recursive-descent reader gives a concrete
executable instance (sufficient for the event vocabulary of the stream
protocol: flat objects, strings, integers, booleans, null, arrays) so
that the consumers can be evaluated on concrete inputs. -/

/-- JSON insignificant whitespace. -/
def isJsonWs (c : Char) : Bool :=
  c = ' ' || c = '\t' || c = '\n' || c = '\r'

/-- Drop leading JSON whitespace. -/
def skipWs (s : Str) : Str := s.dropWhile isJsonWs

/-- Translate a character following a backslash in a JSON string literal. -/
def escChar (e : Char) : Option Char :=
  if e = '"' || e = '/' || e = '\\' then some e
  else if e = 'n' then some (Char.ofNat 10)
  else if e = 't' then some (Char.ofNat 9)
  else if e = 'r' then some (Char.ofNat 13)
  else none

/-- Read a JSON string body (the opening quote already consumed):
returns the decoded content and the remainder after the closing quote. -/
def parseStringBody : Str → Option (Str × Str)
  | [] => none
  | c :: rest =>
    if c = '"' then some ([], rest)
    else if c = '\\' then
      match rest with
      | [] => none
      | e :: rest2 =>
        match escChar e with
        | none => none
        | some ec =>
          match parseStringBody rest2 with
          | none => none
          | some (s, r) => some (ec :: s, r)
    else
      match parseStringBody rest with
      | none => none
      | some (s, r) => some (c :: s, r)

/-- Accumulate decimal digits. -/
def readDigits (acc : Nat) : Str → Nat × Str
  | [] => (acc, [])
  | c :: rest =>
    if c.isDigit then readDigits (acc * 10 + (c.toNat - 48)) rest
    else (acc, c :: rest)

/-- Read a JSON integer (optional minus sign, one or more digits). -/
def parseNum : Str → Option (Int × Str)
  | [] => none
  | c :: rest =>
    if c = '-' then
      match rest with
      | d :: _ =>
        if d.isDigit then
          let (n, r) := readDigits 0 rest
          some (-(n : Int), r)
        else none
      | [] => none
    else if c.isDigit then
      let (n, r) := readDigits 0 (c :: rest)
      some ((n : Int), r)
    else none

mutual

/-- Read one JSON value (fuel-bounded recursive descent). -/
def parseVal : Nat → Str → Option (JVal × Str)
  | 0, _ => none
  | fuel + 1, s =>
    match skipWs s with
    | [] => none
    | c :: rest =>
      if c = '"' then
        match parseStringBody rest with
        | some (str, r) => some (.jstr str, r)
        | none => none
      else if c = '[' then
        match skipWs rest with
        | ']' :: r => some (.jarr [], r)
        | _ =>
          match parseArrItems fuel rest with
          | some (items, r) => some (.jarr items, r)
          | none => none
      else if c = '{' then
        match skipWs rest with
        | '}' :: r => some (.jobj [], r)
        | _ =>
          match parseObjItems fuel rest with
          | some (fields, r) => some (.jobj fields, r)
          | none => none
      else if c = 't' then
        match rest with
        | 'r' :: 'u' :: 'e' :: r => some (.jbool true, r)
        | _ => none
      else if c = 'f' then
        match rest with
        | 'a' :: 'l' :: 's' :: 'e' :: r => some (.jbool false, r)
        | _ => none
      else if c = 'n' then
        match rest with
        | 'u' :: 'l' :: 'l' :: r => some (.null, r)
        | _ => none
      else
        match parseNum (c :: rest) with
        | some (n, r) => some (.jnum n, r)
        | none => none

/-- Read the comma-separated items of a non-empty JSON array, up to and
including the closing bracket. -/
def parseArrItems : Nat → Str → Option (List JVal × Str)
  | 0, _ => none
  | fuel + 1, s =>
    match parseVal fuel s with
    | none => none
    | some (v, r) =>
      match skipWs r with
      | ',' :: r2 =>
        match parseArrItems fuel r2 with
        | some (items, r3) => some (v :: items, r3)
        | none => none
      | ']' :: r2 => some ([v], r2)
      | _ => none

/-- Read the comma-separated members of a non-empty JSON object, up to
and including the closing brace. -/
def parseObjItems : Nat → Str → Option (List (Str × JVal) × Str)
  | 0, _ => none
  | fuel + 1, s =>
    match skipWs s with
    | '"' :: rest =>
      match parseStringBody rest with
      | none => none
      | some (key, r) =>
        match skipWs r with
        | ':' :: r2 =>
          match parseVal fuel r2 with
          | none => none
          | some (v, r3) =>
            match skipWs r3 with
            | ',' :: r4 =>
              match parseObjItems fuel r4 with
              | some (fields, r5) => some ((key, v) :: fields, r5)
              | none => none
            | '}' :: r4 => some ([(key, v)], r4)
            | _ => none
        | _ => none
    | _ => none

end

/-- Parse a whole JSON document: one value, with only whitespace allowed
after it (as `JSON.parse` rejects trailing input). -/
def jsonParse (s : Str) : Option JVal :=
  match parseVal (2 * s.length + 2) s with
  | some (v, rest) => if skipWs rest = [] then some v else none
  | none => none

/-- The model of `JSON.parse(payload)` followed by the consumers' field
accesses: `none` models the exception path of `JSON.parse`. -/
def jsonParseData (s : Str) : Option DataObj :=
  match jsonParse s with
  | some v => some (toDataObj v)
  | none => none

/-! ## Stream-level observations used by the claims -/

/-- The payload handed to `onChunk` by a callback invocation, if it was an
`onChunk` invocation. -/
def eventChunk : Ev → Option JVal
  | .onChunk v => some v
  | _ => none

/-- The `chunk` field of a complete line, when the line is a `data: ` line
whose payload parses: the claim-side description of a line carrying a
chunk event. -/
def lineChunkField (parse : Str → Option DataObj) (line : Str) : Option JVal :=
  if ("data: ".toList).isPrefixOf line then
    match parse (line.drop 6) with
    | some d => d.chunk
    | none => none
  else none

/-- The `onChunk` payloads a single complete line produces under the code:
its truthy `chunk` field, if any. -/
def lineChunkEvents (parse : Str → Option DataObj) (line : Str) : List JVal :=
  match lineChunkField parse line with
  | some v => if jsTruthy v then [v] else []
  | none => []

/-- The string content of a JSON value, when it is a string. -/
def jvalStr : JVal → Option Str
  | .jstr s => some s
  | _ => none

theorem filterMap_flatMap_eq {α β γ : Type} (l : List α) (f : α → List β) (g : β → Option γ) :
    (l.flatMap f).filterMap g = l.flatMap (fun x => (f x).filterMap g) := by
  induction l with
  | nil => rfl
  | cons x xs ih => simp [List.flatMap_cons, List.filterMap_append, ih]

theorem chatProcLine_chunks (parse : Str → Option DataObj) (l : Str) :
    (chatProcLine parse l).filterMap eventChunk = lineChunkEvents parse l := by
  unfold chatProcLine chatLineCore lineChunkEvents lineChunkField
  by_cases hp : ("data: ".toList).isPrefixOf l
  · rw [if_pos hp, if_pos hp]
    cases parse (l.drop 6) with
    | none => rfl
    | some d =>
      simp only
      cases hc : d.chunk with
      | none =>
        cases hd : d.done with
        | none => rfl
        | some w => by_cases hw : jsTruthy w <;> simp [hw, eventChunk]
      | some v =>
        cases hd : d.done with
        | none =>
          by_cases hv : jsTruthy v <;> simp [hv, eventChunk]
        | some w =>
          by_cases hv : jsTruthy v <;> by_cases hw : jsTruthy w <;>
            simp [hv, hw, eventChunk]
  · rw [if_neg hp, if_neg hp]
    rfl

/-- The per-line concatenated chunk text is the same whether one counts
only the truthy chunk fields that actually reach `onChunk` or all chunk
fields of the line: a falsy chunk field is either the empty string or not
a string at all, so it contributes nothing to either side. -/
theorem lineChunkEvents_concat (parse : Str → Option DataObj) (l : Str) :
    ((lineChunkEvents parse l).filterMap jvalStr).flatten =
      (((lineChunkField parse l).toList).filterMap jvalStr).flatten := by
  unfold lineChunkEvents
  cases h : lineChunkField parse l with
  | none => rfl
  | some v =>
    by_cases hv : jsTruthy v
    · simp [hv]
    · cases v with
      | jstr s =>
        have hs : s = [] := by
          by_contra hne
          simp [jsTruthy, hne] at hv
        simp [hv, hs, jvalStr]
      | null => simp [hv, jvalStr]
      | jbool b => simp [hv, jvalStr]
      | jnum n => simp [hv, jvalStr]
      | jarr xs => simp [jsTruthy] at hv
      | jobj fs => simp [jsTruthy] at hv

/-- C2 counterexample input: one read holding two complete `data: ` lines,
the first with an empty-string `chunk` field, the second with `"ab"`. -/
def c2Reads : List Str :=
  ["data: \x7b\"chunk\": \"\"\x7d\ndata: \x7b\"chunk\": \"ab\"\x7d\n".toList]

/-- C2 (counterexample): the stream `c2Reads` contains two complete
`data: ` lines carrying a `chunk` event, but `sendChatMessage` invokes
`onChunk` only once — `data.chunk && onChunk(data.chunk)` skips the
empty-string chunk because `""` is falsy — so "once per complete
`data: ` line carrying a `chunk` event" fails as stated. -/
theorem chat_chunk_per_line_counterexample :
    ((completeLines c2Reads.flatten).filterMap (lineChunkField jsonParseData)).length = 2
    ∧ ((chatConsume jsonParseData c2Reads).events.filterMap eventChunk).length = 1
    ∧ (chatConsume jsonParseData c2Reads).events = [.onChunk (.jstr "ab".toList)] :=
  ⟨rfl, rfl, rfl⟩

/-- C2 (amended): for every decoded read sequence, however the stream text
is split across reads, `sendChatMessage` (1) keeps exactly the trailing
partial line in its buffer, (2) emits the events of the complete lines in
line order, as a function of the concatenated stream text only, (3)
invokes `onChunk` once per complete `data: ` line whose `chunk` field is
truthy (in particular non-empty), in line order, and (4) the concatenation
of all strings passed to `onChunk` equals the concatenation of the `chunk`
fields of the stream's complete `data: ` lines. -/
theorem chat_stream_chunks_ok (parse : Str → Option DataObj) (reads : List Str) :
    (chatConsume parse reads).buffer = (splitOnChar '\n' reads.flatten).getLastD []
    ∧ (chatConsume parse reads).events
        = (completeLines reads.flatten).flatMap (chatProcLine parse)
    ∧ (chatConsume parse reads).events.filterMap eventChunk
        = (completeLines reads.flatten).flatMap (lineChunkEvents parse)
    ∧ (((chatConsume parse reads).events.filterMap eventChunk).filterMap jvalStr).flatten
        = (((completeLines reads.flatten).filterMap (lineChunkField parse)).filterMap
            jvalStr).flatten := by
  have hmaster := consume_eq_of_flatten (chatProcLine parse) reads
  have hbuf : (chatConsume parse reads).buffer
      = (splitOnChar '\n' reads.flatten).getLastD [] := by
    rw [show chatConsume parse reads = consume (chatProcLine parse) reads from rfl, hmaster]
  have hev : (chatConsume parse reads).events
      = (completeLines reads.flatten).flatMap (chatProcLine parse) := by
    rw [show chatConsume parse reads = consume (chatProcLine parse) reads from rfl, hmaster]
  refine ⟨hbuf, hev, ?_, ?_⟩
  · rw [hev, filterMap_flatMap_eq]
    exact List.flatMap_congr (fun l _ => chatProcLine_chunks parse l)
  · rw [hev, filterMap_flatMap_eq]
    induction completeLines reads.flatten with
    | nil => rfl
    | cons l ls ih =>
      simp only [List.flatMap_cons, List.filterMap_append, List.filterMap_cons,
        List.flatten_append]
      rw [chatProcLine_chunks]
      rw [lineChunkEvents_concat]
      cases h : lineChunkField parse l with
      | none => simpa [h, Option.toList] using ih
      | some v =>
        cases hv : jvalStr v with
        | none => simpa [h, hv, Option.toList] using ih
        | some s => simpa [h, hv, Option.toList] using ih

/-- C1 failing input: a stream whose single complete line is a terminal
error event. -/
def c1Reads : List Str := ["data: \x7b\"error\": \"boom\"\x7d\n".toList]

/-- C1 (code bug): the error-event line parses to an object whose `error`
field is the string `"boom"`, and the `try` body of each consumer does
execute `throw new Error(data.error)` (the `Thrown.errEvent` component) —
but the surrounding `catch`, whose comment says it is there to "ignore
parse errors for incomplete JSON", swallows that throw too
(`chatProcLine`/`genProcLine` keep only the invoked callbacks).  Both
consumers therefore finish the stream with no callback invocation and the
returned promise resolves successfully instead of rejecting with "boom". -/
theorem stream_error_event_swallowed :
    jsonParseData ("\x7b\"error\": \"boom\"\x7d".toList)
      = some ⟨none, none, none, none, none, some (.jstr "boom".toList)⟩
    ∧ chatLineCore jsonParseData ("data: \x7b\"error\": \"boom\"\x7d".toList)
      = ([], some (.errEvent (.jstr "boom".toList)))
    ∧ chatProcLine jsonParseData ("data: \x7b\"error\": \"boom\"\x7d".toList) = []
    ∧ chatConsume jsonParseData c1Reads = ⟨[], []⟩
    ∧ genLineCore jsonParseData ("data: \x7b\"error\": \"boom\"\x7d".toList)
      = ([], some (.errEvent (.jstr "boom".toList)))
    ∧ genConsume jsonParseData c1Reads = ⟨[], []⟩ :=
  ⟨rfl, rfl, rfl, rfl, rfl, rfl⟩

/-- C8: on every terminal done event, the `sources` argument handed to
`onDone` is `data.sources || []`; whenever the event's `sources` field is
absent or an array (as the stream protocol guarantees), that argument is
an array — the field's value when present and the empty array when the
field is absent — never `undefined` or `null`.  The first two conjuncts
tie every `onDone` invocation of either consumer to `sourcesArg`; the
last computes `sourcesArg`. -/
theorem onDone_sources_is_array :
    (∀ (parse : Str → Option DataObj) (line : Str) (i : Option JVal) (s : JVal),
      Ev.onDone i s ∈ chatProcLine parse line →
        ∃ d, parse (line.drop 6) = some d ∧ i = d.session_id ∧ s = sourcesArg d)
    ∧ (∀ (parse : Str → Option DataObj) (line : Str) (i : Option JVal) (s : JVal),
      Ev.onDone i s ∈ genProcLine parse line →
        ∃ d, parse (line.drop 6) = some d ∧ i = d.contract_id ∧ s = sourcesArg d)
    ∧ (∀ d : DataObj, d.sources = none ∨ (∃ xs, d.sources = some (.jarr xs)) →
        ∃ xs, sourcesArg d = .jarr xs
          ∧ (d.sources = none → xs = [])
          ∧ (∀ ys, d.sources = some (.jarr ys) → xs = ys)) := by
  refine ⟨?_, ?_, ?_⟩
  · intro parse line i s hmem
    unfold chatProcLine chatLineCore at hmem
    by_cases hp : ("data: ".toList).isPrefixOf line
    · rw [if_pos hp] at hmem
      cases hparse : parse (line.drop 6) with
      | none => rw [hparse] at hmem; simp at hmem
      | some d =>
        rw [hparse] at hmem
        refine ⟨d, rfl, ?_⟩
        simp only [List.mem_append] at hmem
        rcases hmem with hmem | hmem
        · cases hc : d.chunk with
          | none => rw [hc] at hmem; simp at hmem
          | some v =>
            rw [hc] at hmem
            by_cases hv : jsTruthy v <;> simp [hv] at hmem
        · cases hd : d.done with
          | none => rw [hd] at hmem; simp at hmem
          | some w =>
            rw [hd] at hmem
            by_cases hw : jsTruthy w <;> simp [hw] at hmem
            exact hmem
    · rw [if_neg hp] at hmem; simp at hmem
  · intro parse line i s hmem
    unfold genProcLine genLineCore at hmem
    by_cases hp : ("data: ".toList).isPrefixOf line
    · rw [if_pos hp] at hmem
      cases hparse : parse (line.drop 6) with
      | none => rw [hparse] at hmem; simp at hmem
      | some d =>
        rw [hparse] at hmem
        refine ⟨d, rfl, ?_⟩
        simp only [List.mem_append] at hmem
        rcases hmem with hmem | hmem
        · cases hc : d.chunk with
          | none => rw [hc] at hmem; simp at hmem
          | some v =>
            rw [hc] at hmem
            by_cases hv : jsTruthy v <;> simp [hv] at hmem
        · cases hd : d.done with
          | none => rw [hd] at hmem; simp at hmem
          | some w =>
            rw [hd] at hmem
            by_cases hw : jsTruthy w <;> simp [hw] at hmem
            exact hmem
    · rw [if_neg hp] at hmem; simp at hmem
  · intro d hd
    rcases hd with hnone | ⟨xs, hxs⟩
    · refine ⟨[], ?_, ?_, ?_⟩
      · simp [sourcesArg, hnone]
      · intro _; rfl
      · intro ys hys
        rw [hnone] at hys; cases hys
    · refine ⟨xs, ?_, ?_, ?_⟩
      · simp [sourcesArg, hxs, jsTruthy]
      · intro h
        rw [hxs] at h; cases h
      · intro ys hys
        rw [hxs] at hys
        cases hys
        rfl

/-! ## Page-level definitions -/

/-- ASCII subset of the whitespace removed by JavaScript
`String.prototype.trim` (sufficient for the inputs considered here). -/
def isTrimWs (c : Char) : Bool :=
  c = ' ' || c = '\t' || c = '\n' || c = '\r' ||
  c = Char.ofNat 11 || c = Char.ofNat 12

/-- Model of JavaScript `s.trim()`. -/
def jsTrim (s : Str) : Str :=
  ((s.dropWhile isTrimWs).reverse.dropWhile isTrimWs).reverse

/-! ### Lawyer chat submission (C3)

`src/unnamed/part_003` line 25 declares the mode selector state `chatMode`
over a closed union of 22 mode strings; `handleSubmit` (lines 76-117)
passes it as a fifth argument to `sendChatMessage`.  `sendChatMessage`
(`client.ts` lines 201-206) declares only four parameters and builds the
request body as `{ message, session_id: sessionId }` (line 218). -/

/-- The Lawyer page's chat modes (`part_003` line 25). -/
inductive ChatMode : Type where
  | riskManager | smalltalk | consultant | practitioner | litigator
  | legalAudit | compliance | tax | corporate | commercial
  | negotiator | startup | procedural | deadlines | hr
  | workerProtection | analyst | skeptic | judgeQuestions | odds
  | strategist | whatIf

/-- The JSON body of the chat request (`client.ts` line 218):
`{ message, session_id: sessionId }` — these two members and nothing
else. -/
structure ChatRequestBody : Type where
  message : Str
  session_id : Option Int

/-- `sendChatMessage`'s request-body construction (`client.ts` line 218). -/
def sendChatMessageBody (message : Str) (sessionId : Option Int) : ChatRequestBody :=
  ⟨message, sessionId⟩

/-- The request body produced when the Lawyer page submits: `handleSubmit`
(`part_003` lines 76-117) calls
`sendChatMessage(userMessage, sessionId, onChunk, onDone, chatMode)` with
`userMessage = input.trim()`, but `sendChatMessage` takes four parameters,
so the fifth argument is dropped and the body is built from the message
and session id alone. -/
def lawyerSubmitBody (input : Str) (sessionId : Option Int) (_chatMode : ChatMode) :
    ChatRequestBody :=
  sendChatMessageBody (jsTrim input) sessionId

/-- C3 (code bug): the chat request body never contains the selected mode —
it is identical for every choice of `chatMode`, and consists of exactly the
trimmed message and the session id. -/
theorem chat_mode_not_sent :
    (∀ (input : Str) (sid : Option Int) (m₁ m₂ : ChatMode),
        lawyerSubmitBody input sid m₁ = lawyerSubmitBody input sid m₂)
    ∧ lawyerSubmitBody ("Какие права имеет работник?".toList) none ChatMode.riskManager
        = lawyerSubmitBody ("Какие права имеет работник?".toList) none ChatMode.smalltalk
    ∧ lawyerSubmitBody ("Какие права имеет работник?".toList) none ChatMode.riskManager
        = ⟨"Какие права имеет работник?".toList, none⟩ :=
  ⟨fun _ _ _ _ => rfl, rfl, by rw [show lawyerSubmitBody ("Какие права имеет работник?".toList) none ChatMode.riskManager = sendChatMessageBody (jsTrim ("Какие права имеет работник?".toList)) none from rfl]; rfl⟩

/-! ### Validator page (C4) -/

/-- The submit button's `disabled` expression (`Validator.tsx` line 91):
`loading || contractText.length < 50`. -/
def validatorSubmitDisabled (loading : Bool) (contractText : Str) : Bool :=
  loading || decide (contractText.length < 50)

/-- The early-return guard at the top of `Validator.handleSubmit`
(line 47): `if (!contractText.trim() || loading) return;`. -/
def validatorGuardReturnsEarly (contractText : Str) (loading : Bool) : Bool :=
  (jsTrim contractText).isEmpty || loading

/-- The Validator page issues `analyzeContract` only when the form can be
submitted — the submit control is enabled — and `handleSubmit` passes its
guard (`Validator.tsx` lines 45-61, 83-94). -/
def validatorIssuesAnalyze (contractText : Str) (loading : Bool) : Bool :=
  !validatorSubmitDisabled loading contractText
    && !validatorGuardReturnsEarly contractText loading

/-- C4: the submit control is disabled exactly when the contract text is
shorter than 50 characters or a request is in flight, and for every text
shorter than 50 characters no analyze request is ever issued. -/
theorem validator_short_text_never_submitted (contractText : Str) (loading : Bool) :
    (validatorSubmitDisabled loading contractText = true
      ↔ (loading = true ∨ contractText.length < 50))
    ∧ (contractText.length < 50 → validatorIssuesAnalyze contractText loading = false) := by
  constructor
  · simp [validatorSubmitDisabled]
  · intro hshort
    simp [validatorIssuesAnalyze, validatorSubmitDisabled, hshort]

/-! ### Generator page (C5) -/

/-- A contract category as served by the category catalog
(`client.ts` lines 285-289). -/
structure ContractCategory : Type where
  name : Str
  count : Int
  description : Str

/-- The generate button's `disabled` expression (`Generator.tsx` line 304):
`loading || !selectedCategory || requirements.length < 20`. -/
def generatorSubmitDisabled (loading : Bool) (selectedCategory requirements : Str) : Bool :=
  loading || selectedCategory.isEmpty || decide (requirements.length < 20)

/-- The early-return guard of `Generator.handleSubmit` (line 67):
`if (!selectedCategory || !requirements.trim() || loading) return;`. -/
def generatorGuardReturnsEarly (selectedCategory requirements : Str) (loading : Bool) : Bool :=
  selectedCategory.isEmpty || (jsTrim requirements).isEmpty || loading

/-- The Generator page issues `generateContract` only when the form can be
submitted — the generate control is enabled — and `handleSubmit` passes
its guard (`Generator.tsx` lines 65-90, 302-308). -/
def generatorIssuesGenerate (selectedCategory requirements : Str) (loading : Bool) : Bool :=
  !generatorSubmitDisabled loading selectedCategory requirements
    && !generatorGuardReturnsEarly selectedCategory requirements loading

/-- Clicking the `i`-th button of the category grid sets `selectedCategory`
to that category's name (`Generator.tsx` lines 274-287). -/
def categoryClickSelection (categories : List ContractCategory)
    (i : Fin categories.length) : Str :=
  (categories.get i).name

/-- C5: the generate control is disabled exactly when no category is
selected, the requirements are shorter than 20 characters, or a request is
in flight; a generation request is issued only when a category is selected
and the requirements have length ≥ 20 with no request in flight; and the
category grid only ever selects a name from the fetched catalog. -/
theorem generator_request_preconditions (selectedCategory requirements : Str)
    (loading : Bool) :
    (generatorSubmitDisabled loading selectedCategory requirements = true
      ↔ (loading = true ∨ selectedCategory = [] ∨ requirements.length < 20))
    ∧ (generatorIssuesGenerate selectedCategory requirements loading = true →
        selectedCategory ≠ [] ∧ 20 ≤ requirements.length ∧ loading = false)
    ∧ (∀ (categories : List ContractCategory) (i : Fin categories.length),
        categoryClickSelection categories i ∈ categories.map ContractCategory.name) := by
  refine ⟨?_, ?_, ?_⟩
  · simp [generatorSubmitDisabled, List.isEmpty_iff]
    tauto
  · intro hreq
    simp only [generatorIssuesGenerate, generatorSubmitDisabled, Bool.and_eq_true,
      Bool.not_eq_true', Bool.or_eq_false_iff, decide_eq_false_iff_not] at hreq
    obtain ⟨⟨⟨hload, hcat⟩, hlen⟩, -⟩ := hreq
    refine ⟨?_, by omega, hload⟩
    intro hnil
    rw [hnil] at hcat
    simp at hcat
  · intro categories i
    refine List.mem_map_of_mem ContractCategory.name ?_
    rw [List.get_eq_getElem]
    exact List.getElem_mem i.isLt

/-! ### Score classification (C6) -/

/-- `Validator.tsx` lines 63-67. -/
def getScoreColor (score : Int) : String :=
  if score ≥ 80 then "green" else if score ≥ 50 then "yellow" else "red"

/-- `Validator.tsx` lines 69-73. -/
def getScoreEmoji (score : Int) : String :=
  if score ≥ 80 then "🟢" else if score ≥ 50 then "🟡" else "🔴"

/-- The inline score class of the History card (`History.tsx` lines
113-116): `validity_score >= 80 ? 'green' : validity_score >= 50 ?
'yellow' : 'red'`. -/
def historyScoreClass (score : Int) : String :=
  if score ≥ 80 then "green" else if score ≥ 50 then "yellow" else "red"

/-- C6: for every validity score, the Validator result card and the
History card compute the same three-way colour partition, the emoji
classification agrees with the colour classification, and the partition is
green/🟢 iff score ≥ 80, yellow/🟡 iff 50 ≤ score < 80, red/🔴 iff
score < 50. -/
theorem score_classifications_agree (score : Int) :
    getScoreColor score = historyScoreClass score
    ∧ (getScoreColor score = "green" ↔ getScoreEmoji score = "🟢")
    ∧ (getScoreColor score = "yellow" ↔ getScoreEmoji score = "🟡")
    ∧ (getScoreColor score = "red" ↔ getScoreEmoji score = "🔴")
    ∧ (getScoreColor score = "green" ↔ 80 ≤ score)
    ∧ (getScoreColor score = "yellow" ↔ (50 ≤ score ∧ score < 80))
    ∧ (getScoreColor score = "red" ↔ score < 50) := by
  unfold getScoreColor getScoreEmoji historyScoreClass
  split_ifs with h80 h50
  · exact ⟨rfl, iff_of_true rfl rfl, iff_of_false (by decide) (by decide),
      iff_of_false (by decide) (by decide), iff_of_true rfl h80,
      iff_of_false (by decide) (by omega), iff_of_false (by decide) (by omega)⟩
  · exact ⟨rfl, iff_of_false (by decide) (by decide), iff_of_true rfl rfl,
      iff_of_false (by decide) (by decide), iff_of_false (by decide) (by omega),
      iff_of_true rfl ⟨h50, by omega⟩, iff_of_false (by decide) (by omega)⟩
  · exact ⟨rfl, iff_of_false (by decide) (by decide),
      iff_of_false (by decide) (by decide), iff_of_true rfl rfl,
      iff_of_false (by decide) (by omega), iff_of_false (by decide) (by omega),
      iff_of_true rfl (by omega)⟩

/-! ### Unified history (C7) -/

/-- The type tag of a unified history item
(`client.ts` lines 106-115: `type: 'chat' | 'validation' | 'generation'`). -/
inductive HistoryType : Type where
  | chat | validation | generation
deriving DecidableEq

/-- The wire name of a history type. -/
def historyTypeName : HistoryType → String
  | .chat => "chat"
  | .validation => "validation"
  | .generation => "generation"

/-- The page a history type's items dispatch to. -/
def historyPageRoute : HistoryType → String
  | .chat => "/lawyer"
  | .validation => "/validator"
  | .generation => "/generator"

/-- The query key used when dispatching a history item of a given type. -/
def historyQueryKey : HistoryType → String
  | .chat => "?session="
  | .validation => "?id="
  | .generation => "?id="

/-- `History.handleItemClick` (`History.tsx` lines 35-47): the navigation
target for a clicked item of a given type and id. -/
def handleItemClickTarget : HistoryType → Int → String
  | .chat, id => "/lawyer?session=" ++ toString id
  | .validation, id => "/validator?id=" ++ toString id
  | .generation, id => "/generator?id=" ++ toString id

/-- The History page's filter state (`History.tsx` line 10). -/
inductive HistoryFilter : Type where
  | all | chat | validation | generation
deriving DecidableEq

/-- `loadHistory` (`History.tsx` line 25): `filter === 'all' ? undefined :
filter` — the type argument passed to `getHistory`. -/
def loadHistoryFilterParam : HistoryFilter → Option HistoryType
  | .all => none
  | .chat => some .chat
  | .validation => some .validation
  | .generation => some .generation

/-- `getHistory` (`client.ts` lines 365-370): the query string appended to
`/api/history`. -/
def getHistoryParams : Option HistoryType → String
  | some t => "?type=" ++ historyTypeName t
  | none => ""

/-- C7: every history item carries exactly one of the three type tags; the
History page requests at most one kind — no query string when unfiltered,
`?type=<kind>` for exactly the filtered kind otherwise; and clicking an
item navigates to the page matching its tag (chat → /lawyer, validation →
/validator, generation → /generator) carrying that item's id, with
distinct pages for distinct tags. -/
theorem history_dispatch_matches_tag :
    (∀ t : HistoryType, t = .chat ∨ t = .validation ∨ t = .generation)
    ∧ getHistoryParams (loadHistoryFilterParam .all) = ""
    ∧ (∀ t : HistoryType, ∃ f : HistoryFilter,
        loadHistoryFilterParam f = some t
        ∧ getHistoryParams (loadHistoryFilterParam f) = "?type=" ++ historyTypeName t)
    ∧ (∀ (t : HistoryType) (id : Int),
        handleItemClickTarget t id = historyPageRoute t ++ historyQueryKey t ++ toString id)
    ∧ (∀ t t' : HistoryType, historyPageRoute t = historyPageRoute t' → t = t') := by
  refine ⟨?_, rfl, ?_, ?_, ?_⟩
  · intro t; cases t <;> simp
  · intro t
    cases t with
    | chat => exact ⟨.chat, rfl, rfl⟩
    | validation => exact ⟨.validation, rfl, rfl⟩
    | generation => exact ⟨.generation, rfl, rfl⟩
  · intro t id
    cases t <;> simp [handleItemClickTarget, historyPageRoute, historyQueryKey,
      String.append_assoc]
  · intro t t' h
    cases t <;> cases t' <;> first | rfl | exact absurd h (by decide)

/-! ### Initial auth check (C9) -/

/-- A user object (`client.ts` lines 42-47). -/
structure User : Type where
  id : Int
  name : Str
  email : Str

/-- Outcome of `AuthProvider`'s mount-time `checkAuth`
(`AuthContext.tsx` lines 32-54): the `user` state after the check and
whether `apiLogout()` (token removal) was invoked. -/
structure AuthCheckResult : Type where
  user : Option User
  loggedOut : Bool

/-- `checkAuth` (`AuthContext.tsx` lines 34-51): with no stored token the
user stays unset; with a token, a successful `getMe` sets the server
identity; on `getMe` failure the locally stored user is used if present,
and only with no stored user is `apiLogout()` called.  `getMeResult`
models the promise outcome (`none` = rejected). -/
def checkAuth (token : Option Str) (getMeResult : Option User)
    (storedUser : Option User) : AuthCheckResult :=
  match token with
  | none => ⟨none, false⟩
  | some _ =>
    match getMeResult with
    | some u => ⟨some u, false⟩
    | none =>
      match storedUser with
      | some su => ⟨some su, false⟩
      | none => ⟨none, true⟩

/-- `isAuthenticated: !!user` (`AuthContext.tsx` line 76). -/
def isAuthenticated (user : Option User) : Bool :=
  user.isSome

/-- C9: after the initial auth check, `isAuthenticated` holds iff a user
object was set; when a token is present but `getMe` fails, a locally
stored user is accepted as-is (authenticated, no logout); and the check
logs out only when a token is present, `getMe` fails and no stored user
exists. -/
theorem auth_check_accepts_stored_user :
    (∀ u : Option User, isAuthenticated u = true ↔ u ≠ none)
    ∧ (∀ (tk : Str) (su : User),
        checkAuth (some tk) none (some su) = ⟨some su, false⟩
        ∧ isAuthenticated (checkAuth (some tk) none (some su)).user = true)
    ∧ (∀ (token : Option Str) (getMeResult storedUser : Option User),
        (checkAuth token getMeResult storedUser).loggedOut = true →
          token ≠ none ∧ getMeResult = none ∧ storedUser = none) := by
  refine ⟨?_, ?_, ?_⟩
  · intro u
    cases u <;> simp [isAuthenticated]
  · intro tk su
    exact ⟨rfl, rfl⟩
  · intro token getMeResult storedUser h
    cases token with
    | none => cases h
    | some tk =>
      cases getMeResult with
      | some u => cases h
      | none =>
        cases storedUser with
        | some su => cases h
        | none => exact ⟨by simp, rfl, rfl⟩

/-! ### Markdown table parsing (C10) -/

/-- The character class `[\s\-:|]` of the separator-row test
(`Generator.tsx` line 107), with `\s` modelled by its ASCII subset. -/
def sepRowChar (c : Char) : Bool :=
  isTrimWs c || c = '-' || c = ':' || c = '|'

/-- The separator-row test `/^\|[\s\-:|]+\|$/.test(line.trim())`
(`Generator.tsx` line 107): a pipe, one or more class characters, a pipe. -/
def isSeparatorRow (t : Str) : Bool :=
  match t with
  | '|' :: rest =>
    decide (2 ≤ rest.length) && rest.dropLast.all sepRowChar
      && decide (rest.getLastD ' ' = '|')
  | _ => false

/-- `line.trim().startsWith('|') && line.trim().endsWith('|')`
(`Generator.tsx` line 105), applied to the already-trimmed line. -/
def isPipeRow (t : Str) : Bool :=
  match t with
  | [] => false
  | c :: _ => decide (c = '|') && decide (t.getLastD ' ' = '|')

/-- The row a single line contributes inside `parseMarkdownTable`'s loop
(`Generator.tsx` lines 104-114): pipe-delimited non-separator lines yield
`line.split('|').slice(1, -1).map(cell => cell.trim())`, other lines
nothing. -/
def tableRowOfLine (line : Str) : Option (List Str) :=
  let t := jsTrim line
  if isPipeRow t then
    if isSeparatorRow t then none
    else some ((((splitOnChar '|' line).drop 1).dropLast).map jsTrim)
  else none

/-- `parseMarkdownTable` (`Generator.tsx` lines 100-116). -/
def parseMarkdownTable (lines : List Str) : Option (List (List Str)) :=
  if lines.length < 2 then none
  else
    let rows := lines.filterMap tableRowOfLine
    if 0 < rows.length then some rows else none

/-- The claim's description of `parseMarkdownTable`, word for word: `none`
when the list has fewer than 2 lines or contains no trimmed line that
starts and ends with a pipe; otherwise, in input order, one row per
pipe-delimited line that is not a separator row. -/
def claimParseMarkdownTable (lines : List Str) : Option (List (List Str)) :=
  if lines.length < 2 || !(lines.any (fun l => isPipeRow (jsTrim l))) then none
  else some (lines.filterMap tableRowOfLine)

/-- C10 counterexample input: two lines, the first a pipe-delimited
separator row, the second not pipe-delimited. -/
def c10Lines : List Str := ["|-|".toList, "x".toList]

/-- C10 (counterexample): `c10Lines` has two lines and contains a trimmed
line starting and ending with a pipe, so the claim as stated returns the
(empty) row list; the code instead returns `null` because every
pipe-delimited line was a separator row and `rows.length > 0` fails. -/
theorem parseMarkdownTable_counterexample :
    parseMarkdownTable c10Lines = none
    ∧ claimParseMarkdownTable c10Lines = some []
    ∧ c10Lines.length = 2
    ∧ isPipeRow (jsTrim "|-|".toList) = true :=
  ⟨rfl, rfl, rfl, rfl⟩

/-- The claim's description amended on its `null` condition: `none` when
the list has fewer than 2 lines or contains no pipe-delimited
non-separator line; otherwise, in input order, one row per pipe-delimited
non-separator line, each row being that line's interior cells
(`split('|')` minus the first and last element) with surrounding
whitespace trimmed. -/
def amendedParseMarkdownTable (lines : List Str) : Option (List (List Str)) :=
  if lines.length < 2 || !(lines.any (fun l => (tableRowOfLine l).isSome)) then none
  else some (lines.filterMap tableRowOfLine)

/-- C10 (amended): `parseMarkdownTable` agrees with the amended
description on every input. -/
theorem parseMarkdownTable_eq_amended (lines : List Str) :
    parseMarkdownTable lines = amendedParseMarkdownTable lines := by
  unfold parseMarkdownTable amendedParseMarkdownTable
  by_cases hlen : lines.length < 2
  · simp [hlen]
  · simp only [if_neg hlen, hlen, decide_eq_true_eq, Bool.false_or]
    have hiff : (0 < (lines.filterMap tableRowOfLine).length)
        ↔ lines.any (fun l => (tableRowOfLine l).isSome) = true := by
      rw [List.length_pos_iff_ne_nil, Ne, List.filterMap_eq_nil_iff, List.any_eq_true]
      constructor
      · intro h
        by_contra hall
        push_neg at hall
        refine h (fun a ha => ?_)
        have hns := hall a ha
        cases hta : tableRowOfLine a with
        | none => rfl
        | some r =>
          rw [hta] at hns
          simp at hns
      · rintro ⟨a, ha, hsome⟩ hall
        rw [hall a ha] at hsome
        cases hsome
    by_cases hany : lines.any (fun l => (tableRowOfLine l).isSome) = true
    · rw [if_pos (hiff.mpr hany)]
      simp [hany]
    · rw [if_neg (fun hpos => hany (hiff.mp hpos))]
      simp only [Bool.not_eq_true] at hany
      simp [hany]
